import Mathlib

/-!
Verification of the minici in-memory CI server (package `minici`,
`src/ciserver.go`) and its REST quiescence-wait endpoint
(`handleWait` in the REST server file).

The Go code is shallowly embedded:
* `Job`, `JobStatus` mirror the record and status enumeration.
* The job store (`CIServer.jobs`, a `map[JobID]*Job`) is an association
  list with unique keys; `saveJob`, `listJobs`, `allJobDetail`,
  `jobDetail`, `jobLogs` are translated method by method.
* The asynchronous execution pipeline (the goroutine body of
  `ScheduleJob`, plus `cloneAndCheckout` and `executeCommand`) is
  embedded as a list of events (`Ev`): status writes, log appends and
  external actions (mkdirTemp / clone / open / checkout / exec /
  removeAll).  The outcomes of the external collaborators (filesystem,
  git, subprocess) are an explicit `Env` parameter.
* `handleWait` is embedded as a function of a sequence of store
  snapshots (one snapshot per store call), with the two poll loops
  given explicit fuel for the 30 s arrival window and 5 min drain
  window.
-/

namespace MiniCI

/-- Job status (`JobStatus` constants in ciserver.go). -/
inductive JobStatus where
  | pending
  | running
  | success
  | failure
deriving DecidableEq

/-- A status is terminal when it is success or failure. -/
def JobStatus.isTerminal : JobStatus → Bool
  | .success => true
  | .failure => true
  | _ => false

/-- Rank of a status in the lifecycle order pending < running < terminal. -/
def statusRank : JobStatus → Nat
  | .pending => 0
  | .running => 1
  | .success => 2
  | .failure => 2

/-- The `Job` struct of ciserver.go. -/
structure Job where
  id : String
  status : JobStatus
  repoURI : String
  commit : String
  command : String
  logs : List String
deriving DecidableEq

/-- The store `CIServer.jobs : map[JobID]*Job`, as an association list
with unique keys (insertion order retained; Go map iteration order is
arbitrary, which no claim depends on). -/
abbrev Store := List (String × Job)

/-- Whether the map already has a binding for a key. -/
def mapHasKey (s : Store) (k : String) : Bool :=
  s.any (fun p => p.1 == k)

/-- `saveJob` (ciserver.go:136-140): `s.jobs[job.ID] = job` under the
write lock — overwrite if the key exists, insert otherwise. -/
def saveJob (s : Store) (job : Job) : Store :=
  if mapHasKey s job.id then
    s.map (fun p => if p.1 == job.id then (p.1, job) else p)
  else
    s ++ [(job.id, job)]

/-- `ListJobs` (ciserver.go:182-192): all keys of the map. -/
def listJobs (s : Store) : List String :=
  s.map (fun p => p.1)

/-- `AllJobDetail` (ciserver.go:194-203): a copy of every record. -/
def allJobDetail (s : Store) : List Job :=
  s.map (fun p => p.2)

/-- `JobDetail` (ciserver.go:205-217): the record for the id, or a
synthesized record with the requested id and status failure when the id
is unknown.  The second component is the store after the call (the
method only reads). -/
def jobDetail (s : Store) (jobID : String) : Job × Store :=
  match s.find? (fun p => p.1 == jobID) with
  | some p => (p.2, s)
  | none =>
      ({ id := jobID, status := .failure,
         repoURI := "", commit := "", command := "", logs := [] }, s)

/-- `JobLogs` (ciserver.go:219-225): the record's logs, or `[]` when
the id is unknown.  The second component is the store after the call. -/
def jobLogs (s : Store) (jobID : String) : List String × Store :=
  match s.find? (fun p => p.1 == jobID) with
  | some p => (p.2.logs, s)
  | none => ([], s)

/-- The record built at the top of `ScheduleJob` (ciserver.go:143-150):
status pending, inputs captured, empty logs. -/
def mkJob (id repoURI commit command : String) : Job :=
  { id := id, status := .pending, repoURI := repoURI, commit := commit,
    command := command, logs := [] }

/-- The synchronous part of `ScheduleJob` (ciserver.go:142-151, 179):
build the pending record, save it, return the id.  The goroutine is
modelled separately by `pipelineEvs`. -/
def scheduleJobSync (s : Store) (id repoURI commit command : String) :
    Store × String :=
  (saveJob s (mkJob id repoURI commit command), id)

/-! ### The execution pipeline (goroutine of `ScheduleJob`) -/

/-- Outcomes of the external collaborators for one pipeline run:
`os.MkdirTemp` (error message, or the created directory path),
`client.Clone`, `gittools.Open`, `repo.Checkout` (an error message, or
`none` for success), and `cmd.CombinedOutput` (captured combined
output, plus an error message for a non-zero exit or launch failure). -/
structure Env where
  mkdirTempResult : Except String String
  cloneResult : Option String
  openResult : Option String
  checkoutResult : Option String
  runOutput : String
  runErr : Option String

/-- External side effects performed by the pipeline. -/
inductive Action where
  | mkdirTemp (dir : String)
  | clone (uri dir : String)
  | openRepo (dir : String)
  | checkout (commit : String)
  | exec (prog : String) (args : List String) (dir : String)
  | removeAll (dir : String)
deriving DecidableEq

/-- One observable pipeline event: a status write or log append on the
job record, or an external action. -/
inductive Ev where
  | setStatus (st : JobStatus)
  | log (line : String)
  | act (a : Action)
deriving DecidableEq

/-- Whether a pipeline event is a status write. -/
def isSetStatus : Ev → Bool
  | .setStatus _ => true
  | _ => false

/-- Whether a pipeline event launches the command subprocess. -/
def isExec : Ev → Bool
  | .act (.exec _ _ _) => true
  | _ => false

/-- Whether a pipeline event is a clone attempt. -/
def isCloneAct : Ev → Bool
  | .act (.clone _ _) => true
  | _ => false

/-- Whether a pipeline event is a checkout attempt. -/
def isCheckoutAct : Ev → Bool
  | .act (.checkout _) => true
  | _ => false

/-- Go's `unicode.IsSpace` on the ASCII range used by `strings.Fields`:
space, tab, newline, vertical tab, form feed, carriage return. -/
def goIsSpace (c : Char) : Bool :=
  c = ' ' || c = '\t' || c = '\n' || c = Char.ofNat 11 ||
    c = Char.ofNat 12 || c = '\r'

/-- Worker for `fields`: accumulate the current (reversed) word,
emitting it at each whitespace run and at the end. -/
def fieldsAux : List Char → List Char → List String
  | [], acc => if acc.isEmpty then [] else [String.mk acc.reverse]
  | c :: cs, acc =>
      if goIsSpace c then
        if acc.isEmpty then fieldsAux cs []
        else String.mk acc.reverse :: fieldsAux cs []
      else fieldsAux cs (c :: acc)

/-- `strings.Fields` (used at ciserver.go:65): split the command on
runs of whitespace, dropping empty fields. -/
def fields (s : String) : List String :=
  fieldsAux s.data []

/-- Worker for `splitLines`: split at each newline, keeping empty
pieces, as `strings.Split(s, "\n")` does. -/
def splitLinesAux : List Char → List Char → List String
  | [], acc => [String.mk acc.reverse]
  | c :: cs, acc =>
      if c = '\n' then String.mk acc.reverse :: splitLinesAux cs []
      else splitLinesAux cs (c :: acc)

/-- `strings.Split(s, "\n")` (used at ciserver.go:79). -/
def splitLines (s : String) : List String :=
  splitLinesAux s.data []

/-- The log lines produced from the captured combined output
(ciserver.go:79-83): split on newline, drop empty lines, prefix each
remaining line with "> ". -/
def outputLogLines (output : String) : List String :=
  ((splitLines output).filter (fun l => l != "")).map (fun l => "> " ++ l)

/-- `executeCommand` (ciserver.go:61-92) as an event trace: first
component is whether the command succeeded (`nil` error in Go), second
is the trace of log appends and the subprocess launch. -/
def executeCommandEvs (env : Env) (command dir : String) : Bool × List Ev :=
  match fields command with
  | [] =>
      (false, [Ev.log ("Executing command: " ++ command),
               Ev.log ("Error: empty command")])
  | prog :: args =>
      let pre := [Ev.log ("Executing command: " ++ command),
                  Ev.act (.exec prog args dir)]
      let outEvs := (outputLogLines env.runOutput).map Ev.log
      match env.runErr with
      | some e =>
          (false, pre ++ outEvs ++ [Ev.log ("Command execution failed: " ++ e)])
      | none =>
          (true, pre ++ outEvs ++ [Ev.log ("Command executed successfully")])

/-- `cloneAndCheckout` (ciserver.go:97-134) as an event trace: first
component is the temporary directory on success or `none` on failure,
second is the trace of log appends and external actions.  On each
failure after the temporary directory was created, the directory is
removed (`os.RemoveAll`) before returning. -/
def cloneAndCheckoutEvs (env : Env) (repoURI commit : String) :
    Option String × List Ev :=
  match env.mkdirTempResult with
  | .error e =>
      (none, [Ev.log ("Failed to create temp directory: " ++ e)])
  | .ok tempDir =>
      let pre := [Ev.act (.mkdirTemp tempDir),
                  Ev.log ("Cloning repository: " ++ repoURI),
                  Ev.act (.clone repoURI tempDir)]
      match env.cloneResult with
      | some e =>
          (none, pre ++ [Ev.log ("Failed to clone repository: " ++ e),
                         Ev.act (.removeAll tempDir)])
      | none =>
          let pre := pre ++ [Ev.act (.openRepo tempDir)]
          match env.openResult with
          | some e =>
              (none, pre ++ [Ev.log ("Failed to open repository: " ++ e),
                             Ev.act (.removeAll tempDir)])
          | none =>
              let pre := pre ++ [Ev.log ("Checking out commit: " ++ commit),
                                 Ev.act (.checkout commit)]
              match env.checkoutResult with
              | some e =>
                  (none, pre ++ [Ev.log ("Failed to checkout commit: " ++ e),
                                 Ev.act (.removeAll tempDir)])
              | none =>
                  (some tempDir,
                   pre ++ [Ev.log ("Repository ready at " ++ tempDir)])

/-- The goroutine body of `ScheduleJob` (ciserver.go:153-177) as an
event trace: set status running, log, clone and check out; on failure
set status failure and stop; otherwise execute the command and set the
terminal status, then run the deferred `os.RemoveAll` of the temporary
directory. -/
def pipelineEvs (env : Env) (repoURI commit command : String) : List Ev :=
  let head := [Ev.setStatus .running, Ev.log ("Starting job execution")]
  match cloneAndCheckoutEvs env repoURI commit with
  | (none, cevs) => head ++ cevs ++ [Ev.setStatus .failure]
  | (some tempDir, cevs) =>
      let ex := executeCommandEvs env command tempDir
      head ++ cevs ++ [Ev.log ("Repository ready for job execution")] ++
        ex.2 ++
        [Ev.setStatus (if ex.1 then JobStatus.success else JobStatus.failure),
         Ev.act (.removeAll tempDir)]

/-- Apply one pipeline event to the job record. -/
def applyEv (job : Job) : Ev → Job
  | .setStatus st => { job with status := st }
  | .log line => { job with logs := job.logs ++ [line] }
  | .act _ => job

/-- Apply a list of pipeline events to the job record. -/
def applyEvs : Job → List Ev → Job
  | j, [] => j
  | j, e :: es => applyEvs (applyEv j e) es

/-- The job record after the whole pipeline has run. -/
def runPipeline (env : Env) (job : Job) : Job :=
  applyEvs job (pipelineEvs env job.repoURI job.commit job.command)

/-- All intermediate job records along the pipeline, starting with the
record as inserted, one entry per event. -/
def jobTrace : Job → List Ev → List Job
  | j, [] => [j]
  | j, e :: es => j :: jobTrace (applyEv j e) es

/-- The sequence of statuses the job record passes through. -/
def statusTrace (j : Job) (evs : List Ev) : List JobStatus :=
  (jobTrace j evs).map Job.status

/-! ### The quiescence wait (`handleWait` in the REST server) -/

/-- The four outcomes `handleWait` can write: 204 no jobs scheduled,
408 timeout, 200 all jobs completed successfully, 500 one or more jobs
failed. -/
inductive WaitOutcome where
  | noJobs
  | timeout
  | allSucceeded
  | someFailed
deriving DecidableEq

/-- The drain-loop break condition: no job of the snapshot is pending
or running (the `allDone` computation of `handleWait`). -/
def allTerminalSnap (s : Store) : Bool :=
  (allJobDetail s).all
    (fun j => !(j.status == JobStatus.pending || j.status == JobStatus.running))

/-- Phase A of `handleWait`: poll `ListJobs` once per tick (one tick =
one 100 ms sleep) until a job appears or the 30 s arrival window
(`fuel` polls) elapses.  `k` is the index of the next store call in the
snapshot sequence; the returned index is the one used by the
post-loop `len(ListJobs()) == 0` check. -/
def arrivalScan (σ : Nat → Store) : Nat → Nat → Nat
  | 0, k => k
  | fuel + 1, k =>
      if (listJobs (σ k)).length > 0 then k + 1
      else arrivalScan σ fuel (k + 1)

/-- Phase B of `handleWait`: poll `AllJobDetail` once per tick until
every job is terminal (`.ok k` with `k` the index of the successful
poll) or the 5 min drain window elapses (`.error k` with `k` the index
the next call would have used). -/
def drainScan (σ : Nat → Store) : Nat → Nat → Except Nat Nat
  | 0, k => .error k
  | fuel + 1, k =>
      if allTerminalSnap (σ k) then .ok k
      else drainScan σ fuel (k + 1)

/-- `handleWait` over a sequence of store snapshots (σ i is the store
seen by the i-th store call): arrival poll loop, empty re-check, drain
poll loop, then the resolution pass over a fresh `AllJobDetail`
snapshot, which returns 500 as soon as any job status differs from
success. -/
def handleWait (σ : Nat → Store) (arrivalFuel drainFuel : Nat) : WaitOutcome :=
  let k := arrivalScan σ arrivalFuel 0
  if (listJobs (σ k)).length = 0 then .noJobs
  else
    match drainScan σ drainFuel (k + 1) with
    | .error _ => .timeout
    | .ok kb =>
        if (allJobDetail (σ (kb + 1))).all
            (fun j => j.status == JobStatus.success) then .allSucceeded
        else .someFailed

/-- Total number of store calls `handleWait` performs. -/
def handleWaitCalls (σ : Nat → Store) (arrivalFuel drainFuel : Nat) : Nat :=
  let k := arrivalScan σ arrivalFuel 0
  if (listJobs (σ k)).length = 0 then k + 1
  else
    match drainScan σ drainFuel (k + 1) with
    | .error ke => ke
    | .ok kb => kb + 2

/-- Phase A with the cancellation time in scope, mirroring that the Go
loop body contains no `r.Context()` check: the parameter is carried
but never consulted. -/
def arrivalScanC (σ : Nat → Store) (cancelAt : Nat) : Nat → Nat → Nat
  | 0, k => k
  | fuel + 1, k =>
      if (listJobs (σ k)).length > 0 then k + 1
      else arrivalScanC σ cancelAt fuel (k + 1)

/-- Phase B with the cancellation time in scope; as in the source the
loop body never consults it. -/
def drainScanC (σ : Nat → Store) (cancelAt : Nat) : Nat → Nat → Except Nat Nat
  | 0, k => .error k
  | fuel + 1, k =>
      if allTerminalSnap (σ k) then .ok k
      else drainScanC σ cancelAt fuel (k + 1)

/-- `handleWait` together with its cancellation watcher: the watcher
goroutine selects between function completion and context cancellation
and only prints which came first; the Boolean records whether the
cancellation (at store-call index `cancelAt`) arrived before the
function finished.  The poll loops are the cancellation-carrying
variants, which — as in the source — never consult the context. -/
def handleWaitCancel (σ : Nat → Store) (arrivalFuel drainFuel cancelAt : Nat) :
    WaitOutcome × Bool :=
  let k := arrivalScanC σ cancelAt arrivalFuel 0
  let out :=
    if (listJobs (σ k)).length = 0 then WaitOutcome.noJobs
    else
      match drainScanC σ cancelAt drainFuel (k + 1) with
      | .error _ => WaitOutcome.timeout
      | .ok kb =>
          if (allJobDetail (σ (kb + 1))).all
              (fun j => j.status == JobStatus.success) then WaitOutcome.allSucceeded
          else WaitOutcome.someFailed
  (out, decide (cancelAt < handleWaitCalls σ arrivalFuel drainFuel))

/-- One legal step of store evolution between consecutive snapshots:
every binding persists, statuses never decrease in rank, and terminal
statuses are frozen.  (New bindings may appear freely.) -/
def evolveStep (s t : Store) : Bool :=
  s.all (fun p =>
    match t.find? (fun q => q.1 == p.1) with
    | none => false
    | some q =>
        decide (statusRank p.2.status ≤ statusRank q.2.status) &&
          (if p.2.status.isTerminal then q.2.status == p.2.status else true))

/-- A snapshot sequence is a legal store evolution when every
consecutive pair is a legal step. -/
def StoreEvolves (σ : Nat → Store) : Prop :=
  ∀ k, evolveStep (σ k) (σ (k + 1)) = true

/-! ### Lock discipline of the store methods -/

/-- Synchronization events of one store method: acquire/release of the
write or read side of `jobMutex`, and an access to the `jobs` map. -/
inductive SyncEv where
  | lockW
  | unlockW
  | lockR
  | unlockR
  | mapAccess
deriving DecidableEq

/-- Lock trace of `saveJob` (ciserver.go:136-140): `Lock`, map write,
deferred `Unlock`. -/
def saveJobSync : List SyncEv := [.lockW, .mapAccess, .unlockW]

/-- Lock trace of `ListJobs` (ciserver.go:182-192): `RLock`, map
iteration, deferred `RUnlock`. -/
def listJobsSync : List SyncEv := [.lockR, .mapAccess, .unlockR]

/-- Lock trace of `AllJobDetail` (ciserver.go:194-203): `RLock`, map
iteration, deferred `RUnlock`. -/
def allJobDetailSync : List SyncEv := [.lockR, .mapAccess, .unlockR]

/-- Lock trace of `JobDetail` (ciserver.go:205-217): `RLock`, map
lookup, deferred `RUnlock`. -/
def jobDetailSync : List SyncEv := [.lockR, .mapAccess, .unlockR]

/-- Lock trace of `JobLogs` (ciserver.go:219-225): the method body
reads `s.jobs[jobID]` directly — it contains no `RLock`/`RUnlock`
call. -/
def jobLogsSync : List SyncEv := [.mapAccess]

/-- Whether every map access in the trace happens while at least one
side of the mutex is held (`d` is the current hold depth). -/
def lockedAccesses : List SyncEv → Nat → Bool
  | [], _ => true
  | .lockW :: es, d => lockedAccesses es (d + 1)
  | .lockR :: es, d => lockedAccesses es (d + 1)
  | .unlockW :: es, d => lockedAccesses es (d - 1)
  | .unlockR :: es, d => lockedAccesses es (d - 1)
  | .mapAccess :: es, d => decide (0 < d) && lockedAccesses es d

/-! ### Concrete instances used for witnesses and counterexamples -/

/-- An environment in which every external step succeeds and the
command prints `hello`. -/
def env0 : Env :=
  { mkdirTempResult := .ok ("/tmp/job"), cloneResult := none,
    openResult := none, checkoutResult := none,
    runOutput := "hello\n", runErr := none }

/-- An environment in which the clone step fails. -/
def envCloneFail : Env :=
  { mkdirTempResult := .ok ("/tmp/job"), cloneResult := some ("boom"),
    openResult := none, checkoutResult := none,
    runOutput := "", runErr := none }

/-- A job that has already succeeded. -/
def jobDoneA : Job :=
  { id := "A", status := .success, repoURI := "r", commit := "c",
    command := "x", logs := [] }

/-- A job that is still pending. -/
def jobPendB : Job :=
  { id := "B", status := .pending, repoURI := "r", commit := "c",
    command := "y", logs := [] }

/-- A store containing only the finished job. -/
def storeDone : Store := [(("A"), jobDoneA)]

/-- The same store after one more pending job was submitted. -/
def storeDonePend : Store := [(("A"), jobDoneA), (("B"), jobPendB)]

/-- Snapshot sequence in which the pending job `B` is submitted right
after the drain loop of `handleWait` has seen every job terminal. -/
def sigLate : Nat → Store := fun k => if k ≤ 2 then storeDone else storeDonePend

/-- Snapshot sequence of a store holding one forever-pending job. -/
def sigPend : Nat → Store := fun _ => [(("B"), jobPendB)]

/-- Snapshot sequence of a store that stays empty. -/
def sigEmpty : Nat → Store := fun _ => []

/-- Two submissions with distinct identifiers. -/
def subsAB : List (String × String × String × String) :=
  [("A", "r1", "c1", "x"), ("B", "r2", "c2", "y")]

/-- All submissions of a batch, performed in order (each one is the
synchronous part of `ScheduleJob`; the identifier plays the role of the
fresh ULID). -/
def submitAll (s : Store) : List (String × String × String × String) → Store
  | [] => s
  | sub :: rest =>
      submitAll (scheduleJobSync s sub.1 sub.2.1 sub.2.2.1 sub.2.2.2).1 rest

/-! ## Trace machinery -/

lemma applyEv_status_noset (j : Job) (e : Ev) (h : isSetStatus e = false) :
    (applyEv j e).status = j.status := by
  cases e <;> simp_all [applyEv, isSetStatus]

lemma jobTrace_noset (evs : List Ev) : ∀ j : Job,
    evs.all (fun e => !isSetStatus e) = true →
    (jobTrace j evs).map Job.status = List.replicate (evs.length + 1) j.status := by
  induction evs with
  | nil => intro j _; simp [jobTrace]
  | cons e es ih =>
      intro j h
      simp only [List.all_cons, Bool.and_eq_true, Bool.not_eq_true'] at h
      obtain ⟨h1, h2⟩ := h
      simp only [jobTrace, List.map_cons, List.length_cons]
      rw [ih (applyEv j e) h2, applyEv_status_noset j e h1]
      simp [List.replicate_succ]

lemma jobTrace_mid (mid : List Ev) : ∀ (j : Job) (b : JobStatus) (tail : List Ev),
    mid.all (fun e => !isSetStatus e) = true →
    tail.all (fun e => !isSetStatus e) = true →
    (jobTrace j (mid ++ Ev.setStatus b :: tail)).map Job.status =
      List.replicate (mid.length + 1) j.status ++ List.replicate (tail.length + 1) b := by
  induction mid with
  | nil =>
      intro j b tail _ htl
      simp only [List.nil_append, jobTrace, List.map_cons, List.length_nil]
      rw [jobTrace_noset tail (applyEv j (Ev.setStatus b)) htl]
      simp [applyEv, List.replicate_succ]
  | cons e es ih =>
      intro j b tail hm htl
      simp only [List.all_cons, Bool.and_eq_true, Bool.not_eq_true'] at hm
      obtain ⟨h1, h2⟩ := hm
      simp only [List.cons_append, jobTrace, List.map_cons, List.length_cons,
        List.append_eq]
      rw [ih (applyEv j e) b tail h2 htl,
          applyEv_status_noset j e h1]
      simp [List.replicate_succ]

lemma statusTrace_shape (j : Job) (a b : JobStatus) (mid tail : List Ev)
    (hm : mid.all (fun e => !isSetStatus e) = true)
    (htl : tail.all (fun e => !isSetStatus e) = true) :
    statusTrace j (Ev.setStatus a :: (mid ++ Ev.setStatus b :: tail)) =
      j.status :: (List.replicate (mid.length + 1) a ++
        List.replicate (tail.length + 1) b) := by
  simp only [statusTrace, jobTrace, List.map_cons]
  rw [jobTrace_mid mid (applyEv j (Ev.setStatus a)) b tail hm htl]
  rfl

lemma cloneEvs_noset (env : Env) (r c : String) :
    ((cloneAndCheckoutEvs env r c).2).all (fun e => !isSetStatus e) = true := by
  rcases env with ⟨mk, cl, op, co, out, er⟩
  cases mk <;> cases cl <;> cases op <;> cases co <;>
    simp [cloneAndCheckoutEvs, isSetStatus]

lemma execEvs_noset (env : Env) (cmd d : String) :
    ((executeCommandEvs env cmd d).2).all (fun e => !isSetStatus e) = true := by
  unfold executeCommandEvs
  cases fields cmd <;> cases h : env.runErr <;>
    simp [h, isSetStatus, List.all_map, Function.comp]

lemma pipelineEvs_shape (env : Env) (r c cmd : String) :
    ∃ mid tail t, t.isTerminal = true ∧
      mid.all (fun e => !isSetStatus e) = true ∧
      tail.all (fun e => !isSetStatus e) = true ∧
      pipelineEvs env r c cmd =
        Ev.setStatus .running :: (mid ++ Ev.setStatus t :: tail) := by
  rcases hc : cloneAndCheckoutEvs env r c with ⟨res, cevs⟩
  have hcn : cevs.all (fun e => !isSetStatus e) = true := by
    have h := cloneEvs_noset env r c
    rw [hc] at h
    exact h
  cases res with
  | none =>
      refine ⟨Ev.log ("Starting job execution") :: cevs, [], .failure, rfl,
        ?_, rfl, ?_⟩
      · simp only [List.all_cons, Bool.and_eq_true]
        exact ⟨rfl, hcn⟩
      · simp [pipelineEvs, hc]
  | some d =>
      rcases he : executeCommandEvs env cmd d with ⟨ok, eevs⟩
      have hen : eevs.all (fun e => !isSetStatus e) = true := by
        have h := execEvs_noset env cmd d
        rw [he] at h
        exact h
      refine ⟨Ev.log ("Starting job execution") :: cevs ++
          [Ev.log ("Repository ready for job execution")] ++ eevs,
        [Ev.act (.removeAll d)],
        if ok then JobStatus.success else JobStatus.failure, ?_, ?_, ?_, ?_⟩
      · cases ok <;> simp [JobStatus.isTerminal]
      · simp only [List.cons_append, List.all_cons, List.all_append, List.all_nil,
          Bool.and_eq_true, Bool.and_true]
        exact ⟨rfl, ⟨hcn, rfl⟩, hen⟩
      · simp [isSetStatus]
      · simp [pipelineEvs, hc, he, List.append_assoc]

lemma rank_terminal (t : JobStatus) (h : t.isTerminal = true) : statusRank t = 2 := by
  cases t <;> simp_all [JobStatus.isTerminal, statusRank]

lemma pairwise_replicate_rank (k : Nat) (a : JobStatus) :
    (List.replicate k a).Pairwise (fun x y => statusRank x ≤ statusRank y) := by
  induction k with
  | zero => simp
  | succ n ih =>
      rw [List.replicate_succ]
      refine List.Pairwise.cons ?_ ih
      intro b hb
      rw [List.eq_of_mem_replicate hb]

lemma pairwise_rank_shape (m n : Nat) (t : JobStatus) (ht : t.isTerminal = true) :
    (JobStatus.pending :: (List.replicate m JobStatus.running ++
      List.replicate n t)).Pairwise (fun x y => statusRank x ≤ statusRank y) := by
  refine List.Pairwise.cons ?_ ?_
  · intro b _
    exact Nat.zero_le (statusRank b)
  · rw [List.pairwise_append]
    refine ⟨pairwise_replicate_rank _ _, pairwise_replicate_rank _ _, ?_⟩
    intro a ha b hb
    rw [List.eq_of_mem_replicate ha, List.eq_of_mem_replicate hb, rank_terminal t ht]
    simp [statusRank]

/-- C1: every job is inserted pending with empty logs; the pipeline
drives its status through pending, then running, then exactly one
terminal status: the status trace is monotone in rank, never skips
running, and never changes after reaching success or failure, so any
subsequence of observations is monotone as well. -/
theorem job_lifecycle_monotonic (env : Env) (id r c cmd : String) :
    (mkJob id r c cmd).status = JobStatus.pending ∧
    (mkJob id r c cmd).logs = [] ∧
    (∃ m n t, 0 < m ∧ 0 < n ∧ t.isTerminal = true ∧
      statusTrace (mkJob id r c cmd) (pipelineEvs env r c cmd) =
        JobStatus.pending :: (List.replicate m JobStatus.running ++
          List.replicate n t)) ∧
    ∀ obs : List JobStatus,
      List.Sublist obs (statusTrace (mkJob id r c cmd) (pipelineEvs env r c cmd)) →
      obs.Pairwise (fun x y => statusRank x ≤ statusRank y) := by
  obtain ⟨mid, tail, t, ht, hm, htl, hev⟩ := pipelineEvs_shape env r c cmd
  have htr : statusTrace (mkJob id r c cmd) (pipelineEvs env r c cmd) =
      JobStatus.pending :: (List.replicate (mid.length + 1) JobStatus.running ++
        List.replicate (tail.length + 1) t) := by
    rw [hev, statusTrace_shape _ _ _ _ _ hm htl]
    rfl
  refine ⟨rfl, rfl, ⟨mid.length + 1, tail.length + 1, t, Nat.succ_pos _,
    Nat.succ_pos _, ht, htr⟩, ?_⟩
  intro obs hobs
  rw [htr] at hobs
  exact (pairwise_rank_shape (mid.length + 1) (tail.length + 1) t ht).sublist hobs

/-- Witness for C1 at a concrete environment, command and observation
sequence. -/
theorem job_lifecycle_monotonic_witness :
    (mkJob ("J") ("r") ("c") ("echo hello")).status = JobStatus.pending ∧
    (mkJob ("J") ("r") ("c") ("echo hello")).logs = [] ∧
    (statusTrace (mkJob ("J") ("r") ("c") ("echo hello"))
        (pipelineEvs env0 ("r") ("c") ("echo hello"))).Pairwise
      (fun x y => statusRank x ≤ statusRank y) := by
  obtain ⟨h1, h2, _, hobs⟩ :=
    job_lifecycle_monotonic env0 ("J") ("r") ("c") ("echo hello")
  exact ⟨h1, h2, hobs _ (List.Sublist.refl _)⟩

/-! ## Unknown-id lookups (C3) -/

/-- C3: for an identifier not present in the store, `JobDetail` returns
a synthesized record carrying exactly the requested id and status
failure with all other fields empty, `JobLogs` returns the empty
sequence, and neither call changes the store. -/
theorem unknown_id_lookup (s : Store) (jid : String)
    (h : jid ∉ listJobs s) :
    (jobDetail s jid).1 =
      { id := jid, status := .failure, repoURI := "", commit := "",
        command := "", logs := [] } ∧
    (jobDetail s jid).2 = s ∧
    (jobLogs s jid).1 = [] ∧
    (jobLogs s jid).2 = s := by
  have hf : s.find? (fun p => p.1 == jid) = none := by
    rw [List.find?_eq_none]
    intro p hp
    simp only [beq_iff_eq]
    intro hpe
    exact h (hpe ▸ List.mem_map_of_mem (fun q => q.1) hp)
  simp [jobDetail, jobLogs, hf]

/-- Witness for C3: looking up an id absent from a one-job store. -/
theorem unknown_id_lookup_witness :
    (("Z") ∉ listJobs storeDone) ∧
    (jobDetail storeDone ("Z")).1 =
      { id := "Z", status := .failure, repoURI := "", commit := "",
        command := "", logs := [] } ∧
    (jobLogs storeDone ("Z")).1 = [] := by
  have h : ("Z") ∉ listJobs storeDone := by decide
  obtain ⟨h1, _, h3, _⟩ := unknown_id_lookup storeDone ("Z") h
  exact ⟨h, h1, h3⟩

/-! ## Lock discipline of the store methods (C5) -/

/-- C5 is refuted by the code: `JobLogs` (ciserver.go:219-225) accesses
the `jobs` map without acquiring `jobMutex`, while every sibling method
does hold it.  This theorem evaluates the lock traces of all five map
operations: the four locked ones satisfy the discipline and `JobLogs`
does not. -/
theorem jobLogs_lacks_lock :
    lockedAccesses saveJobSync 0 = true ∧
    lockedAccesses listJobsSync 0 = true ∧
    lockedAccesses allJobDetailSync 0 = true ∧
    lockedAccesses jobDetailSync 0 = true ∧
    lockedAccesses jobLogsSync 0 = false := by
  decide

/-! ## Empty and whitespace-only commands (C4, C10) -/

lemma fieldsAux_all_space (l : List Char) (h : ∀ ch ∈ l, goIsSpace ch = true) :
    fieldsAux l [] = [] := by
  induction l with
  | nil => rfl
  | cons c cs ih =>
      have hc := h c (List.mem_cons_self c cs)
      simp only [fieldsAux, hc, if_true, List.isEmpty_nil]
      exact ih (fun ch hch => h ch (List.mem_cons_of_mem c hch))

lemma fields_all_space (cmd : String) (h : ∀ ch ∈ cmd.data, goIsSpace ch = true) :
    fields cmd = [] :=
  fieldsAux_all_space cmd.data h

/-- Shared helper: with an empty field list the pipeline always ends in
failure, never launches a subprocess, and — when clone and checkout
succeed — logs the empty-command rejection. -/
lemma fields_nil_failure (env : Env) (id r c cmd : String)
    (h : fields cmd = []) :
    (runPipeline env (mkJob id r c cmd)).status = .failure ∧
    (pipelineEvs env r c cmd).all (fun e => !isExec e) = true ∧
    ∀ d, (cloneAndCheckoutEvs env r c).1 = some d →
      Ev.log ("Error: empty command") ∈ pipelineEvs env r c cmd := by
  rcases env with ⟨mk, cl, op, co, out, er⟩
  cases mk <;> cases cl <;> cases op <;> cases co <;>
    simp [runPipeline, pipelineEvs, cloneAndCheckoutEvs, executeCommandEvs,
      mkJob, h, applyEvs, applyEv, isExec]

/-- C4 counterexample: with an empty command and a fully successful
clone path, the clone and checkout are attempted (and appear in the
event trace strictly before the empty-command rejection), contradicting
the claim that the empty command is rejected before any side effect. -/
theorem empty_command_cex :
    Ev.act (.clone ("r") ("/tmp/job")) ∈ pipelineEvs env0 ("r") ("c") ("") ∧
    Ev.act (.checkout ("c")) ∈ pipelineEvs env0 ("r") ("c") ("") ∧
    (pipelineEvs env0 ("r") ("c") ("")).indexOf
        (Ev.act (.clone ("r") ("/tmp/job"))) <
      (pipelineEvs env0 ("r") ("c") ("")).indexOf
        (Ev.log ("Error: empty command")) ∧
    Ev.log ("Error: empty command") ∈ pipelineEvs env0 ("r") ("c") ("") ∧
    (runPipeline env0 (mkJob ("J") ("r") ("c") (""))).status = .failure := by
  decide

/-- C4 amended: a job submitted with an empty command still runs the
clone/checkout step first; the empty command is rejected only by the
command-execution step — before any subprocess is launched — and the
job then transitions to failure, with the log entry
"Error: empty command" whenever clone and checkout succeeded. -/
theorem empty_command_amended (env : Env) (id r c cmd : String)
    (h : fields cmd = []) :
    (runPipeline env (mkJob id r c cmd)).status = .failure ∧
    (pipelineEvs env r c cmd).all (fun e => !isExec e) = true ∧
    ∀ d, (cloneAndCheckoutEvs env r c).1 = some d →
      Ev.log ("Error: empty command") ∈ pipelineEvs env r c cmd :=
  fields_nil_failure env id r c cmd h

/-- Witness for the amended C4 at the empty command and a successful
clone path. -/
theorem empty_command_amended_witness :
    (runPipeline env0 (mkJob ("J") ("r") ("c") (""))).status = .failure ∧
    (pipelineEvs env0 ("r") ("c") ("")).all (fun e => !isExec e) = true ∧
    Ev.log ("Error: empty command") ∈ pipelineEvs env0 ("r") ("c") ("") := by
  obtain ⟨h1, h2, h3⟩ :=
    empty_command_amended env0 ("J") ("r") ("c") ("") (by decide)
  exact ⟨h1, h2, h3 ("/tmp/job") (by decide)⟩

lemma countP_isExec_one (env : Env) (cmd d prog : String) (args : List String)
    (hf : fields cmd = prog :: args) :
    (executeCommandEvs env cmd d).2.countP isExec = 1 ∧
    Ev.act (.exec prog args d) ∈ (executeCommandEvs env cmd d).2 := by
  have hmap : ∀ out : String,
      ((outputLogLines out).map Ev.log).countP isExec = 0 := by
    intro out
    rw [List.countP_eq_zero]
    intro e he
    rw [List.mem_map] at he
    obtain ⟨x, _, rfl⟩ := he
    simp [isExec]
  unfold executeCommandEvs
  rw [hf]
  cases env.runErr <;>
    simp [List.countP_append, List.countP_cons, isExec, hmap]

/-- C10: the command is tokenized by splitting on whitespace, the
subprocess launched is exactly the first field with the remaining
fields as arguments (a single launch, no shell), and a whitespace-only
command yields the same empty field list as an empty command: the
command-execution step rejects it with the empty-command log and the
job fails. -/
theorem whitespace_tokenization (env : Env) (cmd d : String) :
    (∀ prog args, fields cmd = prog :: args →
      (executeCommandEvs env cmd d).2.countP isExec = 1 ∧
      Ev.act (.exec prog args d) ∈ (executeCommandEvs env cmd d).2) ∧
    ((∀ ch ∈ cmd.data, goIsSpace ch = true) →
      fields cmd = [] ∧
      executeCommandEvs env cmd d =
        (false, [Ev.log ("Executing command: " ++ cmd),
                 Ev.log ("Error: empty command")]) ∧
      ∀ id r c, (runPipeline env (mkJob id r c cmd)).status = .failure) := by
  refine ⟨fun prog args hf => countP_isExec_one env cmd d prog args hf,
    fun hw => ?_⟩
  have hf : fields cmd = [] := fields_all_space cmd hw
  refine ⟨hf, ?_, fun id r c => (fields_nil_failure env id r c cmd hf).1⟩
  unfold executeCommandEvs
  rw [hf]

/-- Witness for C10 at a whitespace-only command and at a two-field
command. -/
theorem whitespace_tokenization_witness :
    fields ("  \t ") = [] ∧
    (runPipeline env0 (mkJob ("J") ("r") ("c") ("  \t "))).status = .failure ∧
    (executeCommandEvs env0 ("echo hello") ("/tmp/job")).2.countP isExec = 1 ∧
    Ev.act (.exec ("echo") (["hello"]) ("/tmp/job")) ∈
      (executeCommandEvs env0 ("echo hello") ("/tmp/job")).2 := by
  obtain ⟨hf, _, hrun⟩ :=
    (whitespace_tokenization env0 ("  \t ") ("/tmp/job")).2 (by decide)
  obtain ⟨hc, hm⟩ :=
    (whitespace_tokenization env0 ("echo hello") ("/tmp/job")).1
      ("echo") (["hello"]) (by decide)
  exact ⟨hf, hrun ("J") ("r") ("c"), hc, hm⟩

/-! ## Captured output and the success path (C6) -/

lemma applyEvs_append (l1 l2 : List Ev) : ∀ j : Job,
    applyEvs j (l1 ++ l2) = applyEvs (applyEvs j l1) l2 := by
  induction l1 with
  | nil => intro j; rfl
  | cons e es ih => intro j; simp only [List.cons_append, applyEvs]; exact ih _

lemma applyEvs_logmap (xs : List String) : ∀ j : Job,
    applyEvs j (xs.map Ev.log) = { j with logs := j.logs ++ xs } := by
  induction xs with
  | nil => intro j; simp [applyEvs]
  | cons x rest ih =>
      intro j
      simp only [List.map_cons, applyEvs, applyEv]
      rw [ih]
      simp

/-- C6: when the subprocess runs and exits zero, every non-empty line
of the captured combined output is appended to the job's log with the
"> " prefix (empty lines dropped), and the job ends in success with
exactly the expected log sequence. -/
theorem command_output_logged (env : Env) (id r c cmd d : String)
    (hmk : env.mkdirTempResult = .ok d) (hcl : env.cloneResult = none)
    (hop : env.openResult = none) (hco : env.checkoutResult = none)
    (hrun : env.runErr = none) (hcmd : fields cmd ≠ []) :
    (runPipeline env (mkJob id r c cmd)).status = .success ∧
    (runPipeline env (mkJob id r c cmd)).logs =
      ["Starting job execution", "Cloning repository: " ++ r,
       "Checking out commit: " ++ c, "Repository ready at " ++ d,
       "Repository ready for job execution", "Executing command: " ++ cmd] ++
        outputLogLines env.runOutput ++ ["Command executed successfully"] := by
  obtain ⟨prog, args, hfield⟩ : ∃ p a, fields cmd = p :: a := by
    cases hf : fields cmd with
    | nil => exact absurd hf hcmd
    | cons p a => exact ⟨p, a, rfl⟩
  rcases env with ⟨mk, cl, op, co, out, er⟩
  simp only at hmk hcl hop hco hrun
  subst hmk hcl hop hco hrun
  simp [runPipeline, pipelineEvs, cloneAndCheckoutEvs, executeCommandEvs,
    mkJob, hfield, applyEvs, applyEv, applyEvs_append, applyEvs_logmap]

/-- Witness for C6: `echo hello` under a fully successful environment
produces the log line "> hello" and final status success. -/
theorem command_output_logged_witness :
    (runPipeline env0 (mkJob ("J") ("r") ("c") ("echo hello"))).status =
      JobStatus.success ∧
    ("> hello") ∈ (runPipeline env0 (mkJob ("J") ("r") ("c") ("echo hello"))).logs := by
  obtain ⟨h1, h2⟩ := command_output_logged env0 ("J") ("r") ("c") ("echo hello")
    ("/tmp/job") rfl rfl rfl rfl rfl (by decide)
  refine ⟨h1, ?_⟩
  rw [h2]
  decide

/-! ## Cleanup on every exit path, no retry (C7) -/

lemma execEvs_shape_aux (env : Env) (cmd d : String) :
    (executeCommandEvs env cmd d).2.countP isCloneAct = 0 ∧
    (executeCommandEvs env cmd d).2.countP isCheckoutAct = 0 ∧
    ∀ dd, Ev.act (.mkdirTemp dd) ∉ (executeCommandEvs env cmd d).2 := by
  have hz : ∀ (p : Ev → Bool), (∀ x : String, p (Ev.log x) = false) →
      ∀ out : String, ((outputLogLines out).map Ev.log).countP p = 0 := by
    intro p hp out
    rw [List.countP_eq_zero]
    intro e he
    rw [List.mem_map] at he
    obtain ⟨x, _, rfl⟩ := he
    simp [hp]
  unfold executeCommandEvs
  cases fields cmd <;> cases env.runErr <;>
    simp [List.countP_append, List.countP_cons, List.mem_append, List.mem_map,
      isCloneAct, isCheckoutAct, hz (fun e => isCloneAct e) (fun _ => rfl),
      hz (fun e => isCheckoutAct e) (fun _ => rfl)]

lemma cloneEvs_props (env : Env) (r c : String) :
    (cloneAndCheckoutEvs env r c).2.countP isCloneAct ≤ 1 ∧
    (cloneAndCheckoutEvs env r c).2.countP isCheckoutAct ≤ 1 ∧
    (∀ d, Ev.act (.mkdirTemp d) ∈ (cloneAndCheckoutEvs env r c).2 →
       (cloneAndCheckoutEvs env r c).1 = some d ∨
       Ev.act (.removeAll d) ∈ (cloneAndCheckoutEvs env r c).2) ∧
    (cloneAndCheckoutEvs env r c).2.all (fun e => !isExec e) = true ∧
    (∀ e d, env.mkdirTempResult = .ok d → env.cloneResult = some e →
       Ev.log ("Failed to clone repository: " ++ e) ∈
         (cloneAndCheckoutEvs env r c).2) ∧
    (∀ e d, env.mkdirTempResult = .ok d → env.cloneResult = none →
       env.openResult = none → env.checkoutResult = some e →
       Ev.log ("Failed to checkout commit: " ++ e) ∈
         (cloneAndCheckoutEvs env r c).2) := by
  rcases env with ⟨mk, cl, op, co, out, er⟩
  cases mk <;> cases cl <;> cases op <;> cases co <;>
    simp [cloneAndCheckoutEvs, isCloneAct, isCheckoutAct, isExec,
      List.countP_cons, List.countP_nil]

/-- C7: on every exit path each temporary directory that was created is
removed by the time the pipeline finishes; when clone or checkout
fails the job ends in failure, the command subprocess is never
launched, and the failure reason is logged; and neither clone nor
checkout is ever attempted more than once (no retry). -/
theorem pipeline_cleanup (env : Env) (id r c cmd : String) :
    (∀ d, Ev.act (.mkdirTemp d) ∈ pipelineEvs env r c cmd →
       Ev.act (.removeAll d) ∈ pipelineEvs env r c cmd) ∧
    ((cloneAndCheckoutEvs env r c).1 = none →
       (runPipeline env (mkJob id r c cmd)).status = .failure ∧
       (pipelineEvs env r c cmd).all (fun e => !isExec e) = true) ∧
    (pipelineEvs env r c cmd).countP isCloneAct ≤ 1 ∧
    (pipelineEvs env r c cmd).countP isCheckoutAct ≤ 1 ∧
    (∀ e d, env.mkdirTempResult = .ok d → env.cloneResult = some e →
       Ev.log ("Failed to clone repository: " ++ e) ∈ pipelineEvs env r c cmd) ∧
    (∀ e d, env.mkdirTempResult = .ok d → env.cloneResult = none →
       env.openResult = none → env.checkoutResult = some e →
       Ev.log ("Failed to checkout commit: " ++ e) ∈ pipelineEvs env r c cmd) := by
  obtain ⟨hcnt1, hcnt2, hclean, hnoex, hlogcl, hlogco⟩ := cloneEvs_props env r c
  rcases hcc : cloneAndCheckoutEvs env r c with ⟨res, cevs⟩
  rw [hcc] at hcnt1 hcnt2 hclean hnoex hlogcl hlogco
  simp only at hcnt1 hcnt2 hclean hnoex hlogcl hlogco
  cases res with
  | none =>
      have hpe : pipelineEvs env r c cmd =
          [Ev.setStatus .running, Ev.log ("Starting job execution")] ++ cevs ++
            [Ev.setStatus .failure] := by
        simp [pipelineEvs, hcc]
      have hrp : runPipeline env (mkJob id r c cmd) =
          applyEv (applyEvs (applyEvs (mkJob id r c cmd)
            [Ev.setStatus .running, Ev.log ("Starting job execution")]) cevs)
            (Ev.setStatus .failure) := by
        simp [runPipeline, mkJob, hpe, applyEvs_append, applyEvs]
      refine ⟨?_, fun _ => ⟨?_, ?_⟩, ?_, ?_, ?_, ?_⟩
      · intro d hd
        rw [hpe] at hd ⊢
        simp only [List.mem_append, List.mem_cons, List.mem_singleton] at hd ⊢
        rcases hd with (h | h) | h
        · simp at h
        · rcases hclean d h with h2 | h2
          · exact absurd h2 (by simp)
          · exact Or.inl (Or.inr h2)
        · simp at h
      · rw [hrp]
        rfl
      · rw [hpe]
        simp only [List.all_append, List.all_cons, List.all_nil,
          Bool.and_eq_true, Bool.and_true]
        exact ⟨⟨⟨rfl, rfl⟩, hnoex⟩, rfl⟩
      · rw [hpe]
        simpa [List.countP_append, List.countP_cons, isCloneAct] using hcnt1
      · rw [hpe]
        simpa [List.countP_append, List.countP_cons, isCheckoutAct] using hcnt2
      · intro e d h1 h2
        rw [hpe]
        simp only [List.mem_append]
        exact Or.inl (Or.inr (hlogcl e d h1 h2))
      · intro e d h1 h2 h3 h4
        rw [hpe]
        simp only [List.mem_append]
        exact Or.inl (Or.inr (hlogco e d h1 h2 h3 h4))
  | some d0 =>
      have hex1 : (executeCommandEvs env cmd d0).2.countP isCloneAct = 0 :=
        (execEvs_shape_aux env cmd d0).1
      have hex2 : (executeCommandEvs env cmd d0).2.countP isCheckoutAct = 0 :=
        (execEvs_shape_aux env cmd d0).2.1
      have hex3 : ∀ dd, Ev.act (.mkdirTemp dd) ∉ (executeCommandEvs env cmd d0).2 :=
        (execEvs_shape_aux env cmd d0).2.2
      have hpe : pipelineEvs env r c cmd =
          [Ev.setStatus .running, Ev.log ("Starting job execution")] ++ cevs ++
            [Ev.log ("Repository ready for job execution")] ++
            (executeCommandEvs env cmd d0).2 ++
            [Ev.setStatus (if (executeCommandEvs env cmd d0).1 then
                JobStatus.success else JobStatus.failure),
             Ev.act (.removeAll d0)] := by
        simp [pipelineEvs, hcc]
      refine ⟨?_, fun hn => ?_, ?_, ?_, ?_, ?_⟩
      · intro d hd
        rw [hpe] at hd ⊢
        simp only [List.mem_append, List.mem_cons, List.mem_singleton] at hd ⊢
        rcases hd with ((((h | h) | h) | h) | h)
        · simp at h
        · rcases hclean d h with h2 | h2
          · have hdd : d = d0 := by
              have := h2
              simp only [Option.some.injEq] at this
              exact this.symm
            subst hdd
            simp
          · exact Or.inl (Or.inl (Or.inl (Or.inr h2)))
        · simp at h
        · exact absurd h (hex3 d)
        · rcases h with h | h
          · simp at h
          · simp at h
      · exact absurd hn (by simp)
      · rw [hpe]
        simp only [List.countP_append, List.countP_cons, List.countP_nil,
          isCloneAct, hex1, hcnt1]
        simpa [isCloneAct] using hcnt1
      · rw [hpe]
        simpa [List.countP_append, List.countP_cons, List.countP_nil,
          isCheckoutAct, hex2] using hcnt2
      · intro e d h1 h2
        rw [hpe]
        simp only [List.mem_append]
        exact Or.inl (Or.inl (Or.inl (Or.inr (hlogcl e d h1 h2))))
      · intro e d h1 h2 h3 h4
        rw [hpe]
        simp only [List.mem_append]
        exact Or.inl (Or.inl (Or.inl (Or.inr (hlogco e d h1 h2 h3 h4))))

/-- Witness for C7 at a failing clone: the job fails, no subprocess is
launched, the clone error is logged, and the created directory is
removed. -/
theorem pipeline_cleanup_witness :
    (runPipeline envCloneFail (mkJob ("J") ("r") ("c") ("x"))).status =
      JobStatus.failure ∧
    (pipelineEvs envCloneFail ("r") ("c") ("x")).all (fun e => !isExec e) = true ∧
    Ev.log ("Failed to clone repository: " ++ "boom") ∈
      pipelineEvs envCloneFail ("r") ("c") ("x") ∧
    Ev.act (.removeAll ("/tmp/job")) ∈ pipelineEvs envCloneFail ("r") ("c") ("x") := by
  obtain ⟨hclean, hfail, _, _, hlog, _⟩ :=
    pipeline_cleanup envCloneFail ("J") ("r") ("c") ("x")
  obtain ⟨h1, h2⟩ := hfail (by decide)
  exact ⟨h1, h2, hlog ("boom") ("/tmp/job") rfl rfl,
    hclean ("/tmp/job") (by decide)⟩

/-! ## Submissions versus `List` (C8) -/

lemma saveJob_fresh (s : Store) (job : Job) (h : job.id ∉ listJobs s) :
    saveJob s job = s ++ [(job.id, job)] := by
  have hkey : mapHasKey s job.id = false := by
    by_contra hkf
    rw [Bool.not_eq_false, mapHasKey, List.any_eq_true] at hkf
    obtain ⟨p, hp, hpe⟩ := hkf
    rw [beq_iff_eq] at hpe
    refine h ?_
    rw [← hpe]
    exact List.mem_map_of_mem (fun q => q.1) hp
  simp [saveJob, hkey]

lemma submitAll_fresh (subs : List (String × String × String × String)) :
    ∀ s : Store,
    (∀ idv ∈ subs.map (fun x => x.1), idv ∉ listJobs s) →
    (subs.map (fun x => x.1)).Nodup →
    listJobs (submitAll s subs) = listJobs s ++ subs.map (fun x => x.1) ∧
    ∀ p ∈ s, p ∈ submitAll s subs := by
  induction subs with
  | nil => intro s _ _; simp [submitAll]
  | cons sub rest ih =>
      intro s hfresh hnodup
      have hhead : sub.1 ∉ listJobs s := by
        refine hfresh sub.1 ?_
        simp
      have hsave : (scheduleJobSync s sub.1 sub.2.1 sub.2.2.1 sub.2.2.2).1 =
          s ++ [(sub.1, mkJob sub.1 sub.2.1 sub.2.2.1 sub.2.2.2)] :=
        saveJob_fresh s _ hhead
      have hlist : listJobs (s ++ [(sub.1, mkJob sub.1 sub.2.1 sub.2.2.1 sub.2.2.2)]) =
          listJobs s ++ [sub.1] := by
        simp [listJobs]
      simp only [List.map_cons, List.nodup_cons] at hnodup
      obtain ⟨hnotin, hnodup2⟩ := hnodup
      have hfresh2 : ∀ idv ∈ rest.map (fun x => x.1),
          idv ∉ listJobs (s ++ [(sub.1, mkJob sub.1 sub.2.1 sub.2.2.1 sub.2.2.2)]) := by
        intro idv hidv
        rw [hlist]
        simp only [List.mem_append, List.mem_singleton]
        rintro (hin | hin)
        · exact hfresh idv (by simp [hidv]) hin
        · exact hnotin (hin ▸ hidv)
      have hstep : submitAll s (sub :: rest) =
          submitAll (s ++ [(sub.1, mkJob sub.1 sub.2.1 sub.2.2.1 sub.2.2.2)]) rest := by
        rw [submitAll, hsave]
      obtain ⟨ih1, ih2⟩ := ih _ hfresh2 hnodup2
      constructor
      · rw [hstep, ih1, hlist]
        simp
      · intro p hp
        rw [hstep]
        exact ih2 p (List.mem_append_left _ hp)

lemma submitAll_append (pre suf : List (String × String × String × String)) :
    ∀ s : Store, submitAll s (pre ++ suf) = submitAll (submitAll s pre) suf := by
  induction pre with
  | nil => intro s; rfl
  | cons sub rest ih => intro s; rw [List.cons_append, submitAll, submitAll]; exact ih _

/-- C8: after any batch of submissions with fresh identifiers, `List`
returns exactly the submitted identifiers, each exactly once, in
submission order; and every binding present after a prefix of the batch
is still present, unchanged, after the whole batch (identifiers are
never reused, reassigned or removed). -/
theorem submit_list_exact (subs : List (String × String × String × String))
    (h : (subs.map (fun x => x.1)).Nodup) :
    listJobs (submitAll [] subs) = subs.map (fun x => x.1) ∧
    (listJobs (submitAll [] subs)).Nodup ∧
    ∀ pre suf, subs = pre ++ suf →
      ∀ p ∈ submitAll ([] : Store) pre, p ∈ submitAll ([] : Store) subs := by
  have hmain := submitAll_fresh subs [] (by simp [listJobs]) h
  refine ⟨?_, ?_, ?_⟩
  · rw [hmain.1]
    rfl
  · rw [hmain.1]
    simpa [listJobs] using h
  · intro pre suf hsplit p hp
    subst hsplit
    rw [List.map_append, List.nodup_append] at h
    obtain ⟨h1, h2, hdisj⟩ := h
    have hpre := submitAll_fresh pre [] (by simp [listJobs]) h1
    rw [submitAll_append pre suf]
    refine (submitAll_fresh suf (submitAll [] pre) ?_ h2).2 p hp
    intro idv hidv
    rw [hpre.1]
    simp only [listJobs, List.map_nil, List.nil_append]
    intro hpin
    exact hdisj hpin hidv

/-- Witness for C8 at two concrete submissions. -/
theorem submit_list_exact_witness :
    listJobs (submitAll [] subsAB) = [("A"), ("B")] ∧
    (listJobs (submitAll [] subsAB)).Nodup := by
  obtain ⟨h1, h2, _⟩ := submit_list_exact subsAB (by decide)
  exact ⟨by rw [h1]; rfl, h2⟩

/-! ## Quiescence wait outcomes (C2) -/

lemma drainScan_ok (σ : Nat → Store) :
    ∀ fuel k0 kb, drainScan σ fuel k0 = .ok kb → allTerminalSnap (σ kb) = true := by
  intro fuel
  induction fuel with
  | zero => intro k0 kb h; exact absurd h (by simp [drainScan])
  | succ n ih =>
      intro k0 kb h
      rw [drainScan] at h
      by_cases hterm : allTerminalSnap (σ k0) = true
      · rw [if_pos hterm] at h
        cases h
        exact hterm
      · rw [if_neg hterm] at h
        exact ih _ _ h

lemma evolveStep_nonempty (s t : Store) (h : evolveStep s t = true) (hs : s ≠ []) :
    t ≠ [] := by
  rcases s with _ | ⟨p, rest⟩
  · exact absurd rfl hs
  · rw [evolveStep, List.all_cons, Bool.and_eq_true] at h
    obtain ⟨hp, _⟩ := h
    rcases t with _ | ⟨q, tr⟩
    · rw [List.find?_nil] at hp
      exact absurd hp (by simp)
    · simp

lemma evolve_nonempty_mono (σ : Nat → Store) (hev : StoreEvolves σ) :
    ∀ a b : Nat, a ≤ b → σ a ≠ [] → σ b ≠ [] := by
  intro a b hab hne
  induction b, hab using Nat.le_induction with
  | base => exact hne
  | succ n _ ih => exact evolveStep_nonempty (σ n) (σ (n + 1)) (hev n) ih

/-- C2 amended: `handleWait` has the four outcomes, but the resolution
is computed from a fresh snapshot taken after the drain loop exits, not
from the snapshot in which every job was terminal: it returns
all-succeeded iff every job of that later snapshot has status success,
and some-failed iff some job of that later snapshot has any status
other than success (which need not be failure). -/
theorem quiesce_outcomes (σ : Nat → Store) (aF dF : Nat) :
    (handleWait σ aF dF = .noJobs ↔ listJobs (σ (arrivalScan σ aF 0)) = []) ∧
    (StoreEvolves σ → listJobs (σ (arrivalScan σ aF 0)) = [] →
       ∀ t, t ≤ arrivalScan σ aF 0 → listJobs (σ t) = []) ∧
    (∀ ke, drainScan σ dF (arrivalScan σ aF 0 + 1) = .error ke →
       listJobs (σ (arrivalScan σ aF 0)) ≠ [] → handleWait σ aF dF = .timeout) ∧
    (∀ kb, drainScan σ dF (arrivalScan σ aF 0 + 1) = .ok kb →
       listJobs (σ (arrivalScan σ aF 0)) ≠ [] →
       allTerminalSnap (σ kb) = true ∧
       (handleWait σ aF dF = .allSucceeded ↔
         (allJobDetail (σ (kb + 1))).all
           (fun j => j.status == JobStatus.success) = true) ∧
       (handleWait σ aF dF = .someFailed ↔
         (allJobDetail (σ (kb + 1))).all
           (fun j => j.status == JobStatus.success) = false)) := by
  refine ⟨?_, ?_, ?_, ?_⟩
  · by_cases hempty : (listJobs (σ (arrivalScan σ aF 0))).length = 0
    · constructor
      · intro _
        exact List.length_eq_zero.mp hempty
      · intro _
        simp [handleWait, hempty]
    · have hne : listJobs (σ (arrivalScan σ aF 0)) ≠ [] := by
        intro hnil
        exact hempty (by rw [hnil]; rfl)
      constructor
      · intro hout
        exfalso
        simp only [handleWait, hempty, if_false] at hout
        rcases hd : drainScan σ dF (arrivalScan σ aF 0 + 1) with ke | kb <;>
          rw [hd] at hout
        · exact absurd hout (by simp)
        · by_cases hall : (allJobDetail (σ (kb + 1))).all
              (fun j => j.status == JobStatus.success) = true <;>
            simp [hall] at hout
      · intro hnil
        exact absurd hnil hne
  · intro hev hnil t ht
    have hσ : σ (arrivalScan σ aF 0) = [] := List.map_eq_nil_iff.mp hnil
    have hσt : σ t = [] := by
      by_contra htne
      exact evolve_nonempty_mono σ hev t _ ht htne hσ
    rw [listJobs, hσt]
    rfl
  · intro ke hd hne
    have hempty : ¬ (listJobs (σ (arrivalScan σ aF 0))).length = 0 := by
      intro h0
      exact hne (List.length_eq_zero.mp h0)
    simp [handleWait, hempty, hd]
  · intro kb hd hne
    have hempty : ¬ (listJobs (σ (arrivalScan σ aF 0))).length = 0 := by
      intro h0
      exact hne (List.length_eq_zero.mp h0)
    refine ⟨drainScan_ok σ dF _ kb hd, ?_, ?_⟩ <;>
      by_cases hall : (allJobDetail (σ (kb + 1))).all
          (fun j => j.status == JobStatus.success) = true <;>
      simp [handleWait, hempty, hd, hall]

/-- C2 counterexample: a job submitted between the drain check and the
resolution snapshot makes `handleWait` answer some-failed although
every job that existed when all were terminal is success and no job
ever has status failure.  The snapshot sequence is a legal store
evolution. -/
lemma sigLate_evolves : StoreEvolves sigLate := by
  intro k
  by_cases h1 : k + 1 ≤ 2
  · have h0 : k ≤ 2 := le_trans (Nat.le_succ k) h1
    simp only [sigLate]
    rw [if_pos h0, if_pos h1]
    decide
  · by_cases h0 : k ≤ 2
    · simp only [sigLate]
      rw [if_pos h0, if_neg h1]
      decide
    · simp only [sigLate]
      rw [if_neg h0, if_neg h1]
      decide

theorem quiesce_resolution_cex :
    handleWait sigLate 1 1 = .someFailed ∧
    (allJobDetail (sigLate 2)).all (fun j => j.status == JobStatus.success) = true ∧
    (allJobDetail storeDone).all
      (fun j => !(j.status == JobStatus.failure)) = true ∧
    (allJobDetail storeDonePend).all
      (fun j => !(j.status == JobStatus.failure)) = true ∧
    StoreEvolves sigLate := by
  exact ⟨by decide, by decide, by decide, by decide, sigLate_evolves⟩

/-- Witness for the amended C2 at an always-empty store: the wait
returns no-jobs and the store was empty throughout the arrival
window. -/
theorem quiesce_outcomes_witness :
    handleWait sigEmpty 1 1 = .noJobs ∧ listJobs (sigEmpty 0) = [] := by
  have h := quiesce_outcomes sigEmpty 1 1
  have hev : StoreEvolves sigEmpty := fun _ => rfl
  exact ⟨h.1.mpr rfl, h.2.1 hev rfl 0 (by decide)⟩

/-! ## Cancellation of the wait (C9) -/

lemma arrivalScanC_eq (σ : Nat → Store) (cAt : Nat) :
    ∀ fuel k, arrivalScanC σ cAt fuel k = arrivalScan σ fuel k := by
  intro fuel
  induction fuel with
  | zero => intro k; rfl
  | succ n ih =>
      intro k
      rw [arrivalScanC, arrivalScan]
      by_cases h : (listJobs (σ k)).length > 0
      · rw [if_pos h, if_pos h]
      · rw [if_neg h, if_neg h]
        exact ih _

lemma drainScanC_eq (σ : Nat → Store) (cAt : Nat) :
    ∀ fuel k, drainScanC σ cAt fuel k = drainScan σ fuel k := by
  intro fuel
  induction fuel with
  | zero => intro k; rfl
  | succ n ih =>
      intro k
      rw [drainScanC, drainScan]
      by_cases h : allTerminalSnap (σ k) = true
      · rw [if_pos h, if_pos h]
      · rw [if_neg h, if_neg h]
        exact ih _

/-- C9 counterexample: with a forever-pending job and cancellation
arriving before the very first poll, `handleWait` still performs all
seven store polls and runs to its own timeout — the polling loops never
observe the cancellation. -/
theorem cancellation_cex :
    (handleWaitCancel sigPend 5 5 0).1 = .timeout ∧
    (handleWaitCancel sigPend 5 5 0).2 = true ∧
    handleWaitCalls sigPend 5 5 = 7 := by
  decide

/-- C9 amended: the cancellation watcher only records (logs) that the
context was cancelled; the poll loops never consult it, so the wait's
outcome and its store polling are identical for every cancellation
time, and job execution — a separate function of the environment — is
unaffected. -/
theorem cancellation_ignored (σ : Nat → Store) (aF dF cAt : Nat) :
    handleWaitCancel σ aF dF cAt =
      (handleWait σ aF dF, decide (cAt < handleWaitCalls σ aF dF)) := by
  simp only [handleWaitCancel, handleWait, arrivalScanC_eq, drainScanC_eq]

end MiniCI
